import Mathlib

/-!
Verification of the OAuth1 library (dghubble/oauth1) core against its
natural-language specification.

Go strings are byte slices; we model them as `List Nat` with each element a
byte value. Go maps from string to string are modelled as association lists
with unique keys, and the nondeterministic iteration order of a Go map is
captured by quantifying theorems over permutations of the association list.
-/

namespace OAuth1

/-- A Go string, as its byte slice. -/
abbrev ByteStr := List Nat

/-- Byte list of an ASCII string literal (used to write concrete inputs). -/
def bytes (s : String) : ByteStr := s.data.map Char.toNat

/-- Whether a byte belongs to the RFC 5849 section 3.6 unreserved alphabet:
`A-Z a-z 0-9 - . _ ~`. -/
def isUnreservedByte (b : Nat) : Bool :=
  (65 ≤ b && b ≤ 90) || (97 ≤ b && b ≤ 122) || (48 ≤ b && b ≤ 57) ||
    b == 45 || b == 46 || b == 95 || b == 126

/-- Uppercase hexadecimal digit byte for a nibble. -/
def hexUpperDigit (n : Nat) : Nat := if n < 10 then 48 + n else 55 + n

/-- Modelled from the spec: the repository file defining `PercentEncode` is not
under src/ (only its callers in src/sign.go and src/unnamed/part_012 and its
tests). Spec section 4.1: unreserved bytes encode as themselves, every other
byte as `%XX` with uppercase hexadecimal, UTF-8 handled per byte. -/
def PercentEncode : ByteStr → ByteStr
  | [] => []
  | b :: rest =>
    (if isUnreservedByte b then [b]
     else [37, hexUpperDigit (b / 16), hexUpperDigit (b % 16)]) ++ PercentEncode rest

/-- Byte-wise lexicographic order on byte strings, as Go `sort.Strings`
compares strings. -/
def lexLe : ByteStr → ByteStr → Bool
  | [], _ => true
  | _ :: _, [] => false
  | a :: as, b :: bs => if a < b then true else if b < a then false else lexLe as bs

/-- `lexLe` as a proposition, for Mathlib's sorting lemmas. -/
def kle (a b : ByteStr) : Prop := lexLe a b = true

instance : DecidableRel kle := fun a b => instDecidableEqBool (lexLe a b) true

/-- Association-list representation of a Go `map[string]string`. -/
abbrev Params := List (ByteStr × ByteStr)

/-- Key list of a parameter map. -/
def keys (m : Params) : List ByteStr := m.map Prod.fst

/-- First-match lookup in an association list. -/
def lookupOpt : Params → ByteStr → Option ByteStr
  | [], _ => none
  | (k, v) :: rest, key => if k = key then some v else lookupOpt rest key

/-- Go map indexing `m[k]`: the zero value (empty string) when absent. -/
def lookupD (m : Params) (k : ByteStr) : ByteStr := (lookupOpt m k).getD []

/-- Go map assignment `m[k] = v`: replace the existing entry in place, or
append a fresh entry. -/
def insertKV : Params → ByteStr → ByteStr → Params
  | [], k, v => [(k, v)]
  | (k0, v0) :: rest, k, v =>
    if k0 = k then (k, v) :: rest else (k0, v0) :: insertKV rest k v

/-- `for key, value := range kvs { m[key] = value }`. -/
def mergeInto (m : Params) (kvs : Params) : Params :=
  kvs.foldl (fun acc kv => insertKV acc kv.1 kv.2) m

/-- Go map deletion `delete(m, k)`. -/
def eraseKey (m : Params) (k : ByteStr) : Params := m.filter (fun kv => kv.1 ≠ k)

/-- src/sign.go encodeParameters: percent encode every key and value into a
fresh map (`PercentEncode` is injective, so entries stay distinct). -/
def encodeParameters (params : Params) : Params :=
  params.map (fun kv => (PercentEncode kv.1, PercentEncode kv.2))

/-- Go `sort.Strings`: the byte-lexicographically sorted rearrangement. -/
def sortStrings (l : List ByteStr) : List ByteStr := l.insertionSort kle

/-- src/sign.go sortParameters: collect the map's keys, sort them, and render
each as `key=value` via map lookup. -/
def sortParameters (params : Params) : List ByteStr :=
  (sortStrings (keys params)).map (fun k => k ++ 61 :: lookupD params k)

/-- `strings.Join` with a single-byte separator. -/
def joinSep (sep : Nat) : List ByteStr → ByteStr
  | [] => []
  | [x] => x
  | x :: rest => x ++ sep :: joinSep sep rest

/-! ### SHA-1, HMAC-SHA1 and base64

src/sign.go and src/signer.go build signatures from Go's `crypto/sha1`,
`crypto/hmac` and `encoding/base64`; these standard primitives are embedded
concretely (FIPS 180-1 SHA-1, RFC 2104 HMAC, RFC 4648 standard base64) so that
signatures can be computed inside Lean. -/

/-- Reduce modulo 2^32. -/
def w32 (n : Nat) : Nat := n % 4294967296

/-- Rotate a 32-bit word left by `k` bits. -/
def rotl (k n : Nat) : Nat := (n % 2 ^ (32 - k)) * 2 ^ k + n / 2 ^ (32 - k)

/-- 32-bit complement. -/
def compl32 (n : Nat) : Nat := 4294967295 - w32 n

/-- Big-endian 32-bit words from bytes (length a multiple of 4). -/
def toWords : ByteStr → List Nat
  | b0 :: b1 :: b2 :: b3 :: rest =>
    (((b0 * 256 + b1) * 256 + b2) * 256 + b3) :: toWords rest
  | _ => []

/-- Big-endian 8-byte rendering of a 64-bit length. -/
def beBytes8 (n : Nat) : ByteStr :=
  [n / 2 ^ 56 % 256, n / 2 ^ 48 % 256, n / 2 ^ 40 % 256, n / 2 ^ 32 % 256,
   n / 2 ^ 24 % 256, n / 2 ^ 16 % 256, n / 2 ^ 8 % 256, n % 256]

/-- Big-endian bytes of a list of 32-bit words. -/
def wordsToBytes : List Nat → ByteStr
  | [] => []
  | w :: rest => w / 2 ^ 24 % 256 :: w / 2 ^ 16 % 256 :: w / 2 ^ 8 % 256 :: w % 256 :: wordsToBytes rest

/-- SHA-1 padding: append 0x80, zeros to 56 mod 64, then the bit length. -/
def sha1pad (msg : ByteStr) : ByteStr :=
  msg ++ 128 :: List.replicate ((119 - msg.length % 64) % 64) 0 ++ beBytes8 (msg.length * 8)

/-- SHA-1 round function. -/
def sha1f (t b c d : Nat) : Nat :=
  if t < 20 then Nat.lor (Nat.land b c) (Nat.land (compl32 b) d)
  else if t < 40 then Nat.xor b (Nat.xor c d)
  else if t < 60 then Nat.lor (Nat.lor (Nat.land b c) (Nat.land b d)) (Nat.land c d)
  else Nat.xor b (Nat.xor c d)

/-- SHA-1 round constants. -/
def sha1k (t : Nat) : Nat :=
  if t < 20 then 0x5A827999
  else if t < 40 then 0x6ED9EBA1
  else if t < 60 then 0x8F1BBCDC
  else 0xCA62C1D6

/-- Extend the 16-word block to the 80-word message schedule (`k` appends left). -/
def sha1extend : Nat → List Nat → List Nat
  | 0, w => w
  | k + 1, w =>
    sha1extend k (w ++ [rotl 1 (Nat.xor (w.getD (w.length - 3) 0)
      (Nat.xor (w.getD (w.length - 8) 0)
        (Nat.xor (w.getD (w.length - 14) 0) (w.getD (w.length - 16) 0))))])

/-- One SHA-1 block compression over a 16-word block. -/
def sha1block (h : List Nat) (block : List Nat) : List Nat :=
  let ws := sha1extend 64 block
  let h0 := h.getD 0 0
  let h1 := h.getD 1 0
  let h2 := h.getD 2 0
  let h3 := h.getD 3 0
  let h4 := h.getD 4 0
  let fin := ((List.range 80).zip ws).foldl
    (fun st p =>
      let temp := w32 (rotl 5 st.1 + sha1f p.1 st.2.1 st.2.2.1 st.2.2.2.1 + st.2.2.2.2 + sha1k p.1 + p.2)
      (temp, st.1, rotl 30 st.2.1, st.2.2.1, st.2.2.2.1))
    (h0, h1, h2, h3, h4)
  [w32 (h0 + fin.1), w32 (h1 + fin.2.1), w32 (h2 + fin.2.2.1),
   w32 (h3 + fin.2.2.2.1), w32 (h4 + fin.2.2.2.2)]

/-- Fold the compression over consecutive 16-word blocks (structural recursion
so that the kernel can evaluate digests). -/
def sha1blocks (h : List Nat) : List Nat → List Nat
  | w0 :: w1 :: w2 :: w3 :: w4 :: w5 :: w6 :: w7 ::
      w8 :: w9 :: w10 :: w11 :: w12 :: w13 :: w14 :: w15 :: rest =>
    sha1blocks (sha1block h [w0, w1, w2, w3, w4, w5, w6, w7, w8, w9, w10, w11, w12, w13, w14, w15]) rest
  | _ => h

/-- SHA-1 digest (20 bytes) of a byte string. -/
def sha1 (msg : ByteStr) : ByteStr :=
  wordsToBytes (sha1blocks [0x67452301, 0xEFCDAB89, 0x98BADCFE, 0x10325476, 0xC3D2E1F0]
    (toWords (sha1pad msg)))

/-- RFC 2104 HMAC-SHA1 with a 64-byte block. -/
def hmacSha1 (key msg : ByteStr) : ByteStr :=
  let k0 := if 64 < key.length then sha1 key else key
  let kp := k0 ++ List.replicate (64 - k0.length) 0
  sha1 (kp.map (fun b => Nat.xor b 92) ++ sha1 (kp.map (fun b => Nat.xor b 54) ++ msg))

/-- RFC 4648 standard base64 alphabet. -/
def b64char (n : Nat) : Nat :=
  if n < 26 then 65 + n
  else if n < 52 then 97 + (n - 26)
  else if n < 62 then 48 + (n - 52)
  else if n = 62 then 43
  else 47

/-- Go `base64.StdEncoding.EncodeToString` over bytes, with `=` padding. -/
def base64Encode : ByteStr → ByteStr
  | b0 :: b1 :: b2 :: rest =>
    b64char (b0 / 4) :: b64char (b0 % 4 * 16 + b1 / 16) ::
      b64char (b1 % 16 * 4 + b2 / 64) :: b64char (b2 % 64) :: base64Encode rest
  | [b0, b1] => [b64char (b0 / 4), b64char (b0 % 4 * 16 + b1 / 16), b64char (b1 % 16 * 4), 61]
  | [b0] => [b64char (b0 / 4), b64char (b0 % 4 * 16), 61, 61]
  | [] => []

/-- src/sign.go lines 205-211 `signature`: the signing key joins the raw
consumer and token secrets with `&`; the HMAC-SHA1 digest of the message is
base64 encoded. -/
def signature (consumerSecret tokenSecret message : ByteStr) : ByteStr :=
  base64Encode (hmacSha1 (consumerSecret ++ 38 :: tokenSecret) message)

/-- src/signer.go lines 31-37 `HMACSigner.Sign` (identical key construction to
src/sign.go `signature`): `strings.Join([]string{s.consumerSecret, tokenSecret}, "&")`. -/
def hmacSignerSign (consumerSecret tokenSecret message : ByteStr) : ByteStr :=
  base64Encode (hmacSha1 (consumerSecret ++ 38 :: tokenSecret) message)

/-- The signing key as the SPEC words state it (section 4.5): the
percent-encoded consumer secret, an ampersand, and the percent-encoded token
secret. Stated for comparison with the key the source actually builds. -/
def specSigningKey (cs ts : ByteStr) : ByteStr := PercentEncode cs ++ 38 :: PercentEncode ts

/-- The HMAC-SHA1 signer output as claim C1 states it: base64 of the HMAC-SHA1
of the message under `specSigningKey`. -/
def specHmacSign (cs ts msg : ByteStr) : ByteStr := base64Encode (hmacSha1 (specSigningKey cs ts) msg)

/-! ### Percent decoding (src/unnamed/part_013) -/

/-- src/unnamed/part_013 lines 52-62 `ishex`: only digits and UPPERCASE hex
letters are accepted (RFC 5849 3.6 requires uppercase). -/
def ishex (c : Nat) : Bool := (48 ≤ c && c ≤ 57) || (65 ≤ c && c ≤ 70)

/-- src/unnamed/part_013 lines 64-75 `unhex`. -/
def unhex (c : Nat) : Nat :=
  if 48 ≤ c && c ≤ 57 then c - 48
  else if 65 ≤ c && c ≤ 70 then c - 65 + 10
  else 0

/-- First loop of src/unnamed/part_013 `PercentDecode` (lines 14-31): count the
`%` bytes and check each heads a well-formed `%XX` escape; on a malformed
escape return `url.EscapeError` carrying (at most) three bytes of the suffix. -/
def pdScan : ByteStr → Except ByteStr Nat
  | [] => .ok 0
  | b :: rest =>
    if b = 37 then
      match rest with
      | c1 :: c2 :: rest2 =>
        if ishex c1 && ishex c2 then
          match pdScan rest2 with
          | .ok n => .ok (n + 1)
          | .error e => .error e
        else .error ((b :: rest).take 3)
      | _ => .error ((b :: rest).take 3)
    else pdScan rest

/-- Second loop of src/unnamed/part_013 `PercentDecode` (lines 39-47): rewrite
each checked escape to its byte. -/
def pdBuild : ByteStr → ByteStr
  | [] => []
  | 37 :: c1 :: c2 :: rest => (unhex c1 * 16 + unhex c2) :: pdBuild rest
  | b :: rest => b :: pdBuild rest

/-- src/unnamed/part_013 lines 13-49 `PercentDecode`: scan and check, return
the input unchanged when it holds no `%`, else build the decoded string. -/
def PercentDecode (input : ByteStr) : Except ByteStr ByteStr :=
  match pdScan input with
  | .error e => .error e
  | .ok n => if n = 0 then .ok input else .ok (pdBuild input)

/-- Claim C5's premise, read off the claim's words: the input contains a `%`
that is not followed by two uppercase hexadecimal digits. -/
def hasBadPercent : ByteStr → Bool
  | [] => false
  | b :: rest =>
    if b = 37 then
      (match rest with
       | c1 :: c2 :: _ => !(ishex c1 && ishex c2)
       | _ => true) || hasBadPercent rest
    else hasBadPercent rest

/-! ### Query strings and requests

`net/url` parsing used by the source: `req.URL.Query()` is carried as a field
of the request model (its parse is the standard library's, outside this
repository); the form body is parsed by `url.ParseQuery`, embedded below as
far as src/sign.go exercises it. -/

/-- Go `net/url` `ishex`: both hexadecimal cases are accepted here (unlike this
repository's strict `PercentDecode`). -/
def goIshex (c : Nat) : Bool := (48 ≤ c && c ≤ 57) || (97 ≤ c && c ≤ 102) || (65 ≤ c && c ≤ 70)

/-- Go `net/url` `unhex`. -/
def goUnhex (c : Nat) : Nat :=
  if 48 ≤ c && c ≤ 57 then c - 48
  else if 97 ≤ c && c ≤ 102 then c - 97 + 10
  else if 65 ≤ c && c ≤ 70 then c - 65 + 10
  else 0

/-- Go `url.QueryUnescape`: `%XX` escapes (either hex case) and `+` as space;
`none` models the non-nil error. -/
def queryUnescape : ByteStr → Option ByteStr
  | [] => some []
  | 37 :: c1 :: c2 :: rest =>
    if goIshex c1 && goIshex c2 then (queryUnescape rest).map ((goUnhex c1 * 16 + goUnhex c2) :: ·)
    else none
  | 37 :: _ => none
  | 43 :: rest => (queryUnescape rest).map ((32 : Nat) :: ·)
  | b :: rest => (queryUnescape rest).map (b :: ·)

/-- Go `strings.Cut` on a single-byte separator: the part before the first
occurrence, and the part after it when found. -/
def cutByte (sep : Nat) : ByteStr → ByteStr × Option ByteStr
  | [] => ([], none)
  | b :: rest =>
    if b = sep then ([], some rest)
    else
      let r := cutByte sep rest
      (b :: r.1, r.2)

/-- Go `strings.Split` on a single-byte separator (keeps empty segments; the
empty string yields one empty segment). -/
def splitOnByte (sep : Nat) : ByteStr → List ByteStr
  | [] => [[]]
  | b :: rest =>
    if b = sep then [] :: splitOnByte sep rest
    else
      match splitOnByte sep rest with
      | [] => [[b]]
      | seg :: segs => (b :: seg) :: segs

/-- Go `url.Values`: a map from key to the slice of added values, in first-use
order; `Add` appends. -/
abbrev Values := List (ByteStr × List ByteStr)

/-- `url.Values.Add`. -/
def valuesAdd (vals : Values) (k v : ByteStr) : Values :=
  match vals with
  | [] => [(k, [v])]
  | (k0, vs) :: rest => if k0 = k then (k0, vs ++ [v]) :: rest else (k0, vs) :: valuesAdd rest k v

/-- One iteration of Go `url.ParseQuery` (Go 1.17+): a segment containing `;`
is an error, an empty segment is skipped, otherwise the part before the first
`=` and the part after it are query-unescaped and added. -/
def parseQuerySeg (vals : Values) (seg : ByteStr) : Option Values :=
  if 59 ∈ seg then none
  else if seg = [] then some vals
  else
    let kv := cutByte 61 seg
    match queryUnescape kv.1, queryUnescape (kv.2.getD []) with
    | some k, some v => some (valuesAdd vals k v)
    | _, _ => none

/-- Go `url.ParseQuery`, with `none` standing for a non-nil returned error
(src/sign.go aborts on any error, so the partially filled values are never
used). The `&`-cut loop is rendered as a fold over the `&`-split segments,
which processes the same segments in the same order. -/
def parseQuery (q : ByteStr) : Option Values :=
  (splitOnByte 38 q).foldlM parseQuerySeg []

/-- First-match lookup in a `url.Values`. -/
def lookupVals : Values → ByteStr → Option (List ByteStr)
  | [], _ => none
  | (k, vs) :: rest, key => if k = key then some vs else lookupVals rest key

/-- `for key, value := range values { params[key] = value[0] }`: the first
value of each key (src/sign.go lines 142-144 and 156-158). -/
def firstValues (vals : Values) : Params :=
  vals.map (fun kv => (kv.1, kv.2.headD []))

/-- ASCII uppercase of one byte (Go `strings.ToUpper`, ASCII range). -/
def asciiUpper (b : Nat) : Nat := if 97 ≤ b && b ≤ 122 then b - 32 else b

/-- Go `strings.ToUpper` (ASCII range suffices for HTTP methods). -/
def toUpperB (s : ByteStr) : ByteStr := s.map asciiUpper

/-- ASCII lowercase of one byte (Go `strings.ToLower`, ASCII range). -/
def asciiToLower (b : Nat) : Nat := if 65 ≤ b && b ≤ 90 then b + 32 else b

/-- Go `strings.ToLower` (ASCII range suffices for the `OAuth ` scheme test). -/
def toLowerB (s : ByteStr) : ByteStr := s.map asciiToLower

/-- Go `unicode.IsSpace` on ASCII bytes. -/
def goSpace (b : Nat) : Bool := b = 32 || b = 9 || b = 10 || b = 11 || b = 12 || b = 13

/-- Go `strings.TrimSpace` (ASCII range). -/
def trimSpaceB (s : ByteStr) : ByteStr :=
  ((s.dropWhile goSpace).reverse.dropWhile goSpace).reverse

/-- Go `strings.Trim(s, quote)`: strip leading and trailing double quotes. -/
def trimQuotesB (s : ByteStr) : ByteStr :=
  ((s.dropWhile (· = 34)).reverse.dropWhile (· = 34)).reverse

/-- The `Content-Type` value that triggers form-body collection. -/
def formContentTypeB : ByteStr := bytes "application/x-www-form-urlencoded"

/-- An `http.Request` as the embedded source reads it: the method, the URL
string, the URL's parsed query (`req.URL.Query()`), the `Content-Type` and
`Authorization` header values, and the body. The body field holds the bytes
still unread by `req.Body` (`none` is a nil body); `io/ioutil.ReadAll` drains
it to `some []` and reinitialization restores `some b`. -/
structure Request where
  method : ByteStr
  url : ByteStr
  query : Values
  contentTypeHdr : ByteStr
  authHeader : ByteStr
  body : Option ByteStr
deriving DecidableEq

/-- The parameter map merged by src/sign.go signatureBase lines 140-164: query
first values, then form-body first values, then the oauth parameters; each
later source overwrites colliding names. -/
def collectMerge (queryVals bodyVals : Values) (oauthParams : Params) : Params :=
  mergeInto (mergeInto (mergeInto [] (firstValues queryVals)) (firstValues bodyVals)) oauthParams

/-- Body handling and parameter merging of src/sign.go signatureBase lines
140-164, with the request state threaded: when a form content type and a
non-nil body are present the body is drained by `ReadAll`, and only after a
successful `url.ParseQuery` is it reinitialized over the read bytes — the
`ParseQuery` error path returns with the body still drained. -/
def mergedParams (req : Request) (oauthParams : Params) : Option Params × Request :=
  match req.body with
  | some b =>
    if req.contentTypeHdr = formContentTypeB then
      match parseQuery b with
      | none => (none, { req with body := some [] })
      | some vals => (some (collectMerge req.query vals oauthParams), { req with body := some b })
    else (some (collectMerge req.query [] oauthParams), req)
  | none => (some (collectMerge req.query [] oauthParams), req)

/-- src/sign.go lines 165-167: the normalized parameter string — parameters
percent encoded, sorted by key, joined with `=` and `&`. -/
def paramString (params : Params) : ByteStr :=
  joinSep 38 (sortParameters (encodeParameters params))

/-- src/sign.go lines 137-171 `signatureBase`: the uppercase method, the URL
truncated at the first `?` then percent encoded, and the percent encoded
parameter string, joined with `&`. The returned request carries the body
state. -/
def signatureBase (req : Request) (oauthParams : Params) : Option ByteStr × Request :=
  match mergedParams req oauthParams with
  | (none, req1) => (none, req1)
  | (some ps, req1) =>
    (some (joinSep 38 [toUpperB req.method,
      PercentEncode ((splitOnByte 63 req.url).headD []),
      PercentEncode (paramString ps)]), req1)

/-! ### Server-side parameter collection (src/verifier.go) -/

/-- Outcome of a Go function that can also panic. -/
inductive GoRes (α : Type) where
  | panicked : GoRes α
  | failed : GoRes α
  | ok (a : α) : GoRes α
deriving DecidableEq

/-- The `realm` parameter name. -/
def realmB : ByteStr := bytes "realm"

/-- The `oauth_signature` parameter name. -/
def oauthSignatureB : ByteStr := bytes "oauth_signature"

/-- The `OAuth ` authorization scheme (trailing space intentional). -/
def authSchemeB : ByteStr := bytes "OAuth "

/-- The pair loop of src/verifier.go collectRequestParameters lines 206-236:
trim the segment, split at the first `=` (`strings.SplitN(raw, "=", 2)`),
percent-decode the name, skip `realm`, strip quotes from and percent-decode
the value. When the segment holds no `=`, the source indexes `kv[1]` out of
range: that panic is `GoRes.panicked`. -/
def parseAuthPairs : Params → List ByteStr → GoRes Params
  | params, [] => .ok params
  | params, raw :: rest =>
    let kv := cutByte 61 (trimSpaceB raw)
    match PercentDecode kv.1 with
    | .error _ => .failed
    | .ok k =>
      if k = realmB then parseAuthPairs params rest
      else
        match kv.2 with
        | none => .panicked
        | some v0 =>
          match PercentDecode (trimQuotesB v0) with
          | .error _ => .failed
          | .ok v => parseAuthPairs (insertKV params k v) rest

/-- src/verifier.go lines 188-243 `collectRequestParameters`. The query and
body collection it delegates to `collectParameters` is modelled from the spec:
that function's defining file is not under src/ (only this caller and tests);
per spec section 4.3 it collects query first values then form-body first
values exactly as the inline collection in src/sign.go signatureBase does, so
`mergedParams` with no oauth parameters is used for it. The authorization
header is then parsed when it starts (case-insensitively) with `OAuth `, and
`oauth_signature` is extracted from the map and returned beside it. -/
def collectRequestParameters (req : Request) : GoRes (Params × ByteStr × Request) :=
  match mergedParams req [] with
  | (none, _) => .failed
  | (some params, req1) =>
    let afterAuth :=
      if (toLowerB authSchemeB).isPrefixOf (toLowerB req.authHeader) then
        parseAuthPairs params (splitOnByte 44 (req.authHeader.drop 6))
      else .ok params
    match afterAuth with
    | .panicked => .panicked
    | .failed => .failed
    | .ok ps => .ok (eraseKey ps oauthSignatureB, lookupD ps oauthSignatureB, req1)

/-! ### Timestamp checking (src/verifier.go lines 91-109) -/

/-- Digits-only decimal parse used by `strconv.ParseInt`. -/
def parseDigits (s : ByteStr) : Option Nat :=
  if s = [] then none
  else if s.all (fun b => 48 ≤ b && b ≤ 57) then
    some (s.foldl (fun n b => n * 10 + (b - 48)) 0)
  else none

/-- Go `strconv.ParseInt(s, 10, 64)`: optional sign, decimal digits, and the
int64 range check (out-of-range is a returned error). -/
def parseInt64 (s : ByteStr) : Option Int :=
  match s with
  | 43 :: rest =>
    (parseDigits rest).bind (fun n => if n ≤ 9223372036854775807 then some (n : Int) else none)
  | 45 :: rest =>
    (parseDigits rest).bind (fun n => if n ≤ 9223372036854775808 then some (-(n : Int)) else none)
  | _ =>
    (parseDigits s).bind (fun n => if n ≤ 9223372036854775807 then some (n : Int) else none)

/-- Go `time.Time.Sub` saturates to the int64 duration range. -/
def clampI64 (d : Int) : Int :=
  if d < -9223372036854775808 then -9223372036854775808
  else if 9223372036854775807 < d then 9223372036854775807
  else d

/-- src/verifier.go lines 91-109 `checkTimestamp`: skip when the configured
max clock skew is negative; otherwise parse `oauth_timestamp` as decimal
seconds and fail exactly when `now.Sub(time.Unix(timestamp, 0))` exceeds the
skew. Durations are in nanoseconds; `nowNs` is the server clock in
nanoseconds since the epoch. -/
def checkTimestamp (maxClockSkew nowNs : Int) (rawTimestamp : ByteStr) : Except Unit Unit :=
  if maxClockSkew < 0 then .ok ()
  else
    match parseInt64 rawTimestamp with
    | none => .error ()
    | some timestamp =>
      if maxClockSkew < clampI64 (nowNs - timestamp * 1000000000) then .error ()
      else .ok ()

/-! ### OAuth parameter maps for the access-token request (claim C9) -/

/-- The five common protocol parameters (src/sign.go lines 91-99
`commonOAuthParams` and src/unnamed/part_012 lines 90-98 `basicOAuthParams`
build the same map; clock and noncer values are passed in). -/
def commonOAuthParams (consumerKey timestamp nonceValue : ByteStr) : Params :=
  [(bytes "oauth_consumer_key", consumerKey),
   (bytes "oauth_signature_method", bytes "HMAC-SHA1"),
   (bytes "oauth_timestamp", timestamp),
   (bytes "oauth_nonce", nonceValue),
   (bytes "oauth_version", bytes "1.0")]

/-- src/sign.go lines 60-63 `SetAccessTokenAuthHeader`: the oauth parameter
map it signs and formats sets `oauth_token` and then puts the verifier under
`oauth_verifier`. -/
def accessTokenOAuthParams (consumerKey timestamp nonceValue token verifier : ByteStr) : Params :=
  insertKV (insertKV (commonOAuthParams consumerKey timestamp nonceValue)
    (bytes "oauth_token") token) (bytes "oauth_verifier") verifier

/-- src/unnamed/part_012 lines 59-62 `SetAccessTokenAuthHeader` (older source
variant): it sets `oauth_token` and then writes the verifier under
`oauth_version`, overwriting the `"1.0"` entry. -/
def accessTokenOAuthParamsV12 (consumerKey timestamp nonceValue token verifier : ByteStr) : Params :=
  insertKV (insertKV (commonOAuthParams consumerKey timestamp nonceValue)
    (bytes "oauth_token") token) (bytes "oauth_version") verifier

/-! ### HMAC verification (src/verifier.go lines 165-180) -/

/-- src/verifier.go `HMACVerifier.Verify`: recompute the expected signature
with the signer over the base string and the held token secret, and compare
with the claimed signature as-is. -/
def hmacVerifierVerify (consumerSecret tokenSecret baseString actualSignature : ByteStr) :
    Except Unit Unit :=
  let expectedSignature := hmacSignerSign consumerSecret tokenSecret baseString
  if actualSignature ≠ expectedSignature then .error () else .ok ()

/-! ### Forwarded header (src/verifier.go lines 275-285) -/

/-- The pair loop of `parseForwardedHeader`: each `;`-separated pair is split
at the first `=` by `strings.SplitN(pair, "=", 2)` and `result[kv[0]] = kv[1]`
is executed; a pair with no `=` makes `kv[1]` an out-of-range index — the
panic is `none`. -/
def fwdPairs : Params → List ByteStr → Option Params
  | result, [] => some result
  | result, pair :: rest =>
    let kv := cutByte 61 pair
    match kv.2 with
    | none => none
    | some v => fwdPairs (insertKV result kv.1 v) rest

/-- src/verifier.go lines 275-285 `parseForwardedHeader`: the empty header
yields the empty map, otherwise the `;`-split pairs are inserted; `none`
models the panic on a pair with no `=`. -/
def parseForwardedHeader (forwarded : ByteStr) : Option Params :=
  if forwarded = [] then some []
  else fwdPairs [] (splitOnByte 59 forwarded)

/-! ### Concrete inputs used by witnesses and counterexamples -/

/-- A form-encoded request whose body `a=%zz` fails `url.ParseQuery`. -/
def badBodyRequest : Request :=
  { method := bytes "POST", url := bytes "http://x/y", query := [],
    contentTypeHdr := formContentTypeB, authHeader := [], body := some (bytes "a=%zz") }

/-- A form-encoded request with a well-formed body. -/
def okBodyRequest : Request :=
  { method := bytes "POST", url := bytes "http://x/y", query := [],
    contentTypeHdr := formContentTypeB, authHeader := [], body := some (bytes "c2=&plus=2+q") }

/-- A request whose Authorization header holds a comma-separated pair with no
`=` (`OAuth foo`). -/
def malformedAuthRequest : Request :=
  { method := bytes "POST", url := bytes "/request", query := [],
    contentTypeHdr := [], authHeader := bytes "OAuth foo", body := none }

/-- A request with a query, used by the C2 witness. -/
def witReq : Request :=
  { method := bytes "post", url := bytes "http://x/y?b=2&a=1",
    query := [(bytes "b", [bytes "2"]), (bytes "a", [bytes "1"])],
    contentTypeHdr := [], authHeader := [], body := none }

/-- An oauth parameter map, and `witP2` the same map inserted in the other
order. -/
def witP1 : Params := [(bytes "oauth_nonce", bytes "n1"), (bytes "oauth_version", bytes "1.0")]

/-- `witP1` with the two entries swapped. -/
def witP2 : Params := [(bytes "oauth_version", bytes "1.0"), (bytes "oauth_nonce", bytes "n1")]

/-- Query values for the C4 witness: `shared` collides with body and oauth,
`pq` with body, `multi` has two values. -/
def witQV : Values :=
  [(bytes "shared", [bytes "sq"]), (bytes "pq", [bytes "pq_q"]),
   (bytes "multi", [bytes "m1", bytes "m2"])]

/-- Body values for the C4 witness. -/
def witBV : Values :=
  [(bytes "shared", [bytes "sb"]), (bytes "pq", [bytes "pq_b1", bytes "pq_b2"])]

/-- Oauth parameters for the C4 witness. -/
def witOA : Params := [(bytes "shared", bytes "so")]

/-! ## Lemmas about the byte-lexicographic order and sorting -/

theorem lexLe_total : ∀ a b : ByteStr, lexLe a b = true ∨ lexLe b a = true := by
  intro a
  induction a with
  | nil => intro b; left; cases b <;> rfl
  | cons x xs ih =>
    intro b
    cases b with
    | nil => right; rfl
    | cons y ys =>
      simp only [lexLe]
      rcases Nat.lt_trichotomy x y with h | h | h
      · left; simp [h]
      · subst h; simpa [Nat.lt_irrefl] using ih ys
      · right; simp [h, Nat.not_lt.mpr (Nat.le_of_lt h)]

theorem lexLe_trans : ∀ a b c : ByteStr, lexLe a b = true → lexLe b c = true → lexLe a c = true := by
  intro a
  induction a with
  | nil => intro b c _ _; cases c <;> rfl
  | cons x xs ih =>
    intro b c hab hbc
    cases b with
    | nil => simp [lexLe] at hab
    | cons y ys =>
      cases c with
      | nil => simp [lexLe] at hbc
      | cons z zs =>
        simp only [lexLe] at hab hbc ⊢
        by_cases hxy : x < y
        · by_cases hyz : y < z
          · rw [if_pos (by omega)]
          · by_cases hzy : z < y
            · rw [if_neg hyz, if_pos hzy] at hbc; simp at hbc
            · rw [if_pos (by omega)]
        · by_cases hyx : y < x
          · rw [if_neg hxy, if_pos hyx] at hab; simp at hab
          · have hxy2 : x = y := by omega
            subst hxy2
            rw [if_neg hxy, if_neg hyx] at hab
            by_cases hxz : x < z
            · rw [if_pos hxz]
            · by_cases hzx : z < x
              · rw [if_neg hxz, if_pos hzx] at hbc; simp at hbc
              · rw [if_neg hxz, if_neg hzx] at hbc ⊢
                exact ih ys zs hab hbc

theorem lexLe_antisymm : ∀ a b : ByteStr, lexLe a b = true → lexLe b a = true → a = b := by
  intro a
  induction a with
  | nil =>
    intro b _ hba
    cases b with
    | nil => rfl
    | cons y ys => simp [lexLe] at hba
  | cons x xs ih =>
    intro b hab hba
    cases b with
    | nil => simp [lexLe] at hab
    | cons y ys =>
      simp only [lexLe] at hab hba
      by_cases hxy : x < y
      · rw [if_neg (by omega), if_pos hxy] at hba; simp at hba
      · by_cases hyx : y < x
        · rw [if_neg hxy, if_pos hyx] at hab; simp at hab
        · have hxy2 : x = y := by omega
          subst hxy2
          rw [if_neg hxy, if_neg hyx] at hab
          rw [if_neg hyx, if_neg hxy] at hba
          exact congrArg (x :: ·) (ih ys hab hba)

instance : IsTotal ByteStr kle := ⟨fun a b => lexLe_total a b⟩

instance : IsTrans ByteStr kle := ⟨fun a b c => lexLe_trans a b c⟩

instance : IsAntisymm ByteStr kle := ⟨fun a b => lexLe_antisymm a b⟩

theorem sortStrings_eq_of_perm {l1 l2 : List ByteStr} (h : l1.Perm l2) :
    sortStrings l1 = sortStrings l2 :=
  List.eq_of_perm_of_sorted
    ((List.perm_insertionSort kle l1).trans (h.trans (List.perm_insertionSort kle l2).symm))
    (List.sorted_insertionSort kle l1) (List.sorted_insertionSort kle l2)

/-! ## Lemmas about percent encoding -/

theorem hexUpperDigit_inj {m n : Nat} (h : hexUpperDigit m = hexUpperDigit n) : m = n := by
  unfold hexUpperDigit at h
  split_ifs at h <;> omega

theorem isUnreservedByte_ne_37 {b : Nat} (h : isUnreservedByte b = true) : b ≠ 37 := by
  intro he
  subst he
  simp [isUnreservedByte] at h

theorem percentEncode_injective : ∀ a b : ByteStr, PercentEncode a = PercentEncode b → a = b := by
  intro a
  induction a with
  | nil =>
    intro b h
    cases b with
    | nil => rfl
    | cons y ys =>
      exfalso
      simp only [PercentEncode] at h
      split_ifs at h <;> simp at h
  | cons x xs ih =>
    intro b h
    cases b with
    | nil =>
      exfalso
      simp only [PercentEncode] at h
      split_ifs at h <;> simp at h
    | cons y ys =>
      simp only [PercentEncode] at h
      split_ifs at h with hx hy hy
      · simp only [List.cons_append, List.nil_append, List.cons.injEq] at h
        exact h.1 ▸ congrArg _ (ih ys h.2)
      · exfalso
        simp only [List.cons_append, List.nil_append, List.cons.injEq] at h
        exact isUnreservedByte_ne_37 hx h.1
      · exfalso
        simp only [List.cons_append, List.nil_append, List.cons.injEq] at h
        exact isUnreservedByte_ne_37 hy h.1.symm
      · simp only [List.cons_append, List.nil_append, List.cons.injEq] at h
        obtain ⟨-, h1, h2, h3⟩ := h
        have hq : x / 16 = y / 16 := hexUpperDigit_inj h1
        have hr : x % 16 = y % 16 := hexUpperDigit_inj h2
        have hxy : x = y := by omega
        exact hxy ▸ congrArg _ (ih ys h3)

theorem percentEncode_unreserved : ∀ s : ByteStr,
    (∀ b ∈ s, isUnreservedByte b = true) → PercentEncode s = s := by
  intro s
  induction s with
  | nil => intro _; rfl
  | cons x xs ih =>
    intro h
    simp only [PercentEncode, h x (List.mem_cons_self x xs), if_true, List.cons_append,
      List.nil_append]
    exact congrArg _ (ih (fun b hb => h b (List.mem_cons_of_mem x hb)))

/-! ## Lemmas about association-list maps -/

theorem lookupOpt_eq_none_of_not_mem {m : Params} {k : ByteStr} (h : k ∉ keys m) :
    lookupOpt m k = none := by
  induction m with
  | nil => rfl
  | cons kv rest ih =>
    obtain ⟨k0, v0⟩ := kv
    simp only [keys, List.map_cons, List.mem_cons, not_or] at h
    simp only [lookupOpt]
    rw [if_neg (fun he => h.1 he.symm), ih (by simpa [keys] using h.2)]

theorem lookupOpt_isSome_of_mem {m : Params} {k : ByteStr} (h : k ∈ keys m) :
    (lookupOpt m k).isSome = true := by
  induction m with
  | nil => simp [keys] at h
  | cons kv rest ih =>
    obtain ⟨k0, v0⟩ := kv
    simp only [keys, List.map_cons, List.mem_cons] at h
    simp only [lookupOpt]
    by_cases he : k0 = k
    · simp [he]
    · rcases h with h | h
      · exact absurd h.symm he
      · simpa [he] using ih (by simpa [keys] using h)

theorem lookupOpt_insertKV (m : Params) (k v k' : ByteStr) :
    lookupOpt (insertKV m k v) k' = if k = k' then some v else lookupOpt m k' := by
  induction m with
  | nil => simp [insertKV, lookupOpt]
  | cons kv rest ih =>
    obtain ⟨k0, v0⟩ := kv
    simp only [insertKV]
    by_cases h0 : k0 = k
    · subst h0
      by_cases h1 : k0 = k'
      · subst h1; simp [lookupOpt]
      · simp [lookupOpt, h1]
    · simp only [if_neg h0, lookupOpt]
      by_cases h1 : k0 = k'
      · subst h1
        rw [if_pos rfl, if_pos rfl, if_neg (fun he => h0 he.symm)]
      · rw [if_neg h1, if_neg h1, ih]

theorem keys_insertKV (m : Params) (k v : ByteStr) :
    keys (insertKV m k v) = if k ∈ keys m then keys m else keys m ++ [k] := by
  induction m with
  | nil => simp [insertKV, keys]
  | cons kv rest ih =>
    obtain ⟨k0, v0⟩ := kv
    simp only [insertKV, keys, List.map_cons]
    by_cases h0 : k0 = k
    · subst h0
      rw [if_pos rfl]
      simp only [keys, List.map_cons]
      rw [if_pos (List.mem_cons_self _ _)]
    · rw [if_neg h0]
      simp only [keys, List.map_cons] at ih ⊢
      rw [ih]
      by_cases hm : k ∈ List.map Prod.fst rest
      · rw [if_pos hm, if_pos (List.mem_cons_of_mem _ hm)]
      · rw [if_neg hm, if_neg (by
          simp only [List.mem_cons]
          rintro (he | he)
          · exact h0 he.symm
          · exact hm he), List.cons_append]

theorem keys_insertKV_nodup {m : Params} (h : (keys m).Nodup) (k v : ByteStr) :
    (keys (insertKV m k v)).Nodup := by
  rw [keys_insertKV]
  by_cases hm : k ∈ keys m
  · rwa [if_pos hm]
  · rw [if_neg hm]
    refine List.nodup_append.mpr ⟨h, List.nodup_singleton k, ?_⟩
    intro a ha hb
    simp only [List.mem_singleton] at hb
    exact hm (hb ▸ ha)

theorem keys_mergeInto_nodup {m : Params} (kvs : Params) (h : (keys m).Nodup) :
    (keys (mergeInto m kvs)).Nodup := by
  induction kvs generalizing m with
  | nil => exact h
  | cons kv rest ih =>
    simp only [mergeInto, List.foldl_cons] at ih ⊢
    exact ih (keys_insertKV_nodup h kv.1 kv.2)

theorem lookupOpt_mergeInto {kvs : Params} (hnd : (keys kvs).Nodup) (m : Params) (k : ByteStr) :
    lookupOpt (mergeInto m kvs) k = Option.or (lookupOpt kvs k) (lookupOpt m k) := by
  induction kvs generalizing m with
  | nil => simp [mergeInto, lookupOpt]
  | cons kv rest ih =>
    obtain ⟨k0, v0⟩ := kv
    simp only [keys, List.map_cons, List.nodup_cons] at hnd
    simp only [mergeInto, List.foldl_cons] at ih ⊢
    rw [ih hnd.2, lookupOpt_insertKV]
    simp only [lookupOpt]
    by_cases h0 : k0 = k
    · subst h0
      rw [if_pos rfl, if_pos rfl,
        lookupOpt_eq_none_of_not_mem (by simpa [keys] using hnd.1)]
      simp [Option.or]
    · rw [if_neg h0, if_neg h0]

theorem keys_mergeInto {kvs : Params} (hnd : (keys kvs).Nodup) (m : Params) :
    keys (mergeInto m kvs) = keys m ++ (keys kvs).filter (fun k => k ∉ keys m) := by
  induction kvs generalizing m with
  | nil => simp [mergeInto, keys]
  | cons kv rest ih =>
    obtain ⟨k0, v0⟩ := kv
    simp only [keys, List.map_cons, List.nodup_cons] at hnd
    simp only [mergeInto, List.foldl_cons] at ih ⊢
    rw [ih hnd.2, keys_insertKV]
    by_cases hm : k0 ∈ keys m
    · rw [if_pos hm]
      simp only [keys, List.map_cons]
      rw [List.filter_cons_of_neg (by simp only [decide_eq_true_eq]; exact fun hc => hc hm)]
    · rw [if_neg hm]
      simp only [keys, List.map_cons]
      rw [List.filter_cons_of_pos (by simp only [decide_eq_true_eq]; exact hm), List.append_assoc,
        List.singleton_append]
      congr 1
      congr 1
      refine List.filter_congr (fun x hx => ?_)
      have hx0 : x ≠ k0 := fun he => hnd.1 (he ▸ hx)
      rw [decide_eq_decide]
      simp [List.mem_append, hx0]

theorem lookupOpt_perm {p1 p2 : Params} (h : p1.Perm p2) :
    (keys p1).Nodup → ∀ k, lookupOpt p1 k = lookupOpt p2 k := by
  induction h with
  | nil => intro _ k; rfl
  | cons kv h ih =>
    intro hnd k
    obtain ⟨k0, v0⟩ := kv
    simp only [keys, List.map_cons, List.nodup_cons] at hnd
    simp only [lookupOpt]
    by_cases he : k0 = k
    · simp [he]
    · simp only [if_neg he]
      exact ih hnd.2 k
  | swap a b l =>
    intro hnd k
    simp only [keys, List.map_cons, List.nodup_cons, List.mem_cons, not_or] at hnd
    simp only [lookupOpt]
    by_cases hb : b.1 = k <;> by_cases ha : a.1 = k
    · exact absurd (hb.trans ha.symm) hnd.1.1
    · simp [hb, ha]
    · simp [hb, ha]
    · simp [hb, ha]
  | trans h1 h2 ih1 ih2 =>
    intro hnd k
    rw [ih1 hnd k, ih2 ((h1.map Prod.fst).nodup_iff.mp (by simpa [keys] using hnd)) k]

/-! ## The normalized parameter string depends only on the map -/

theorem keys_encodeParameters (m : Params) :
    keys (encodeParameters m) = (keys m).map PercentEncode := by
  simp [keys, encodeParameters, List.map_map, Function.comp]

theorem lookupOpt_encodeParameters (m : Params) (k : ByteStr) :
    lookupOpt (encodeParameters m) (PercentEncode k) = (lookupOpt m k).map PercentEncode := by
  induction m with
  | nil => rfl
  | cons kv rest ih =>
    obtain ⟨k0, v0⟩ := kv
    simp only [encodeParameters, List.map_cons, lookupOpt]
    by_cases he : k0 = k
    · subst he
      rw [if_pos rfl, if_pos rfl]
      rfl
    · rw [if_neg (fun hc => he (percentEncode_injective _ _ hc)), if_neg he]
      exact ih

theorem paramString_ext {mA mB : Params} (hperm : (keys mA).Perm (keys mB))
    (hlook : ∀ k, lookupOpt mA k = lookupOpt mB k) : paramString mA = paramString mB := by
  unfold paramString sortParameters
  have hsort : sortStrings (keys (encodeParameters mA)) = sortStrings (keys (encodeParameters mB)) := by
    refine sortStrings_eq_of_perm ?_
    rw [keys_encodeParameters, keys_encodeParameters]
    exact hperm.map PercentEncode
  rw [hsort]
  congr 1
  refine List.map_congr_left (fun k1 hk1 => ?_)
  have hmem : k1 ∈ keys (encodeParameters mB) := by
    have := List.mem_insertionSort kle (l := keys (encodeParameters mB)) (x := k1)
    exact this.mp hk1
  rw [keys_encodeParameters] at hmem
  obtain ⟨k, hkmem, rfl⟩ := List.mem_map.mp hmem
  unfold lookupD
  rw [lookupOpt_encodeParameters, lookupOpt_encodeParameters, hlook]

theorem keys_firstValues (vals : Values) : keys (firstValues vals) = vals.map Prod.fst := by
  simp [keys, firstValues, List.map_map, Function.comp]

theorem lookupOpt_firstValues (vals : Values) (k : ByteStr) :
    lookupOpt (firstValues vals) k = (lookupVals vals k).map (fun vs => vs.headD []) := by
  induction vals with
  | nil => rfl
  | cons kv rest ih =>
    obtain ⟨k0, vs0⟩ := kv
    simp only [firstValues, List.map_cons, lookupOpt, lookupVals]
    by_cases he : k0 = k
    · simp [he]
    · simpa [he, firstValues] using ih

theorem collectMerge_paramString (q bv : Values) {p1 p2 : Params}
    (hnd : (keys p1).Nodup) (hp : p1.Perm p2) :
    paramString (collectMerge q bv p1) = paramString (collectMerge q bv p2) := by
  have hnd2 : (keys p2).Nodup := (hp.map Prod.fst).nodup_iff.mp (by simpa [keys] using hnd)
  refine paramString_ext ?_ ?_
  · rw [collectMerge, collectMerge, keys_mergeInto hnd, keys_mergeInto hnd2]
    exact List.Perm.append_left _ ((hp.map Prod.fst).filter _)
  · intro k
    rw [collectMerge, collectMerge, lookupOpt_mergeInto hnd, lookupOpt_mergeInto hnd2,
      lookupOpt_perm hp hnd k]

/-! ## Claim theorems -/

/-- C2: for every request method, absolute URL, and parameter map, the
signature base string equals `uppercase(method) & pct(URL truncated at the
first question mark) & pct(normalized parameter string)`, where the normalized
parameter string is the percent-encoded `key=value` pairs sorted by encoded
key and joined with `&` (that is `paramString` of the merged map); and
identical inputs yield the identical base string regardless of the insertion
order of the oauth parameter map (permuting the map does not change it). -/
theorem c2_signature_base_deterministic (req : Request) (p1 p2 : Params)
    (hnd : (keys p1).Nodup) (hp : p1.Perm p2) :
    (signatureBase req p1).1 = (signatureBase req p2).1 ∧
    (∀ ps req1, mergedParams req p1 = (some ps, req1) →
      (signatureBase req p1).1 =
        some (toUpperB req.method ++ 38 ::
          (PercentEncode ((splitOnByte 63 req.url).headD []) ++ 38 ::
            PercentEncode (paramString ps)))) := by
  constructor
  · unfold signatureBase mergedParams
    cases hb : req.body with
    | none => simp [collectMerge_paramString req.query [] hnd hp]
    | some b =>
      by_cases hct : req.contentTypeHdr = formContentTypeB
      · simp only [if_pos hct]
        cases hpq : parseQuery b with
        | none => simp
        | some vals => simp [collectMerge_paramString req.query vals hnd hp]
      · simp [if_neg hct, collectMerge_paramString req.query [] hnd hp]
  · intro ps req1 hm
    unfold signatureBase
    rw [hm]
    simp [joinSep]

/-- C4: in the merged parameter map used for the signature base, an oauth
parameter overrides a colliding body and query parameter; a name in both body
and query resolves to the body value; and for a query or body key only the
first value of its value slice is taken. -/
theorem c4_merge_precedence (queryVals bodyVals : Values) (oauth : Params) (k : ByteStr)
    (hqnd : (queryVals.map Prod.fst).Nodup) (hbnd : (bodyVals.map Prod.fst).Nodup)
    (hond : (keys oauth).Nodup) :
    (k ∈ keys oauth →
      lookupOpt (collectMerge queryVals bodyVals oauth) k = lookupOpt oauth k) ∧
    (k ∉ keys oauth → ∀ vs, lookupVals bodyVals k = some vs →
      lookupOpt (collectMerge queryVals bodyVals oauth) k = some (vs.headD [])) ∧
    (k ∉ keys oauth → lookupVals bodyVals k = none →
      ∀ vs, lookupVals queryVals k = some vs →
        lookupOpt (collectMerge queryVals bodyVals oauth) k = some (vs.headD [])) := by
  have hbnd1 : (keys (firstValues bodyVals)).Nodup := by rwa [keys_firstValues]
  unfold collectMerge
  rw [lookupOpt_mergeInto hond, lookupOpt_mergeInto hbnd1]
  refine ⟨?_, ?_, ?_⟩
  · intro hk
    obtain ⟨v, hv⟩ := Option.isSome_iff_exists.mp (lookupOpt_isSome_of_mem hk)
    simp [hv, Option.or]
  · intro hk vs hvs
    rw [lookupOpt_eq_none_of_not_mem hk, lookupOpt_firstValues, hvs]
    simp [Option.or]
  · intro hk hbn vs hvs
    have hqnd1 : (keys (firstValues queryVals)).Nodup := by rwa [keys_firstValues]
    rw [lookupOpt_eq_none_of_not_mem hk, lookupOpt_firstValues bodyVals, hbn,
      lookupOpt_mergeInto hqnd1, lookupOpt_firstValues queryVals, hvs]
    simp [Option.or, lookupOpt]

/-- C2 witness: the theorem applied to a concrete request and a concretely
permuted oauth parameter map. -/
theorem c2_signature_base_deterministic_witness :
    (signatureBase witReq witP1).1 = (signatureBase witReq witP2).1 ∧
    (signatureBase witReq witP1).1 =
      some (toUpperB witReq.method ++ 38 ::
        (PercentEncode ((splitOnByte 63 witReq.url).headD []) ++ 38 ::
          PercentEncode (paramString (collectMerge witReq.query [] witP1)))) :=
  ⟨(c2_signature_base_deterministic witReq witP1 witP2 (by decide) (by decide)).1,
   (c2_signature_base_deterministic witReq witP1 witP2 (by decide) (by decide)).2
     (collectMerge witReq.query [] witP1) witReq rfl⟩

/-- C4 witness: concrete colliding keys — `shared` present in all three maps
resolves to the oauth value, `pq` present in query and body resolves to the
first body value, and `multi` (two query values) resolves to the first. -/
theorem c4_merge_precedence_witness :
    lookupOpt (collectMerge witQV witBV witOA) (bytes "shared") =
      lookupOpt witOA (bytes "shared") ∧
    lookupOpt (collectMerge witQV witBV witOA) (bytes "pq") =
      some (([bytes "pq_b1", bytes "pq_b2"]).headD []) ∧
    lookupOpt (collectMerge witQV witBV witOA) (bytes "multi") =
      some (([bytes "m1", bytes "m2"]).headD []) :=
  ⟨(c4_merge_precedence witQV witBV witOA (bytes "shared")
      (by decide) (by decide) (by decide)).1 (by decide),
   (c4_merge_precedence witQV witBV witOA (bytes "pq")
      (by decide) (by decide) (by decide)).2.1 (by decide)
      [bytes "pq_b1", bytes "pq_b2"] (by decide),
   (c4_merge_precedence witQV witBV witOA (bytes "multi")
      (by decide) (by decide) (by decide)).2.2 (by decide) (by decide)
      [bytes "m1", bytes "m2"] (by decide)⟩

/-! ## Claim C5: strictness of PercentDecode -/

theorem ishex_ne_37 {c : Nat} (h : ishex c = true) : c ≠ 37 := by
  intro he
  subst he
  simp [ishex] at h

theorem pdScan_ok_no_bad : ∀ l : ByteStr, ∀ n, pdScan l = .ok n → hasBadPercent l = false := by
  intro l
  induction l using pdScan.induct with
  | case1 => intro n h; rfl
  | case2 c1 c2 rest2 hhex n1 hscan ih =>
    intro n h
    have hx1 : ishex c1 = true := by
      rcases Bool.and_eq_true_iff.mp hhex with ⟨h1, _⟩; exact h1
    have hx2 : ishex c2 = true := by
      rcases Bool.and_eq_true_iff.mp hhex with ⟨_, h2⟩; exact h2
    have h1 : c1 ≠ 37 := ishex_ne_37 hx1
    have h2 : c2 ≠ 37 := ishex_ne_37 hx2
    simp only [hasBadPercent, if_pos rfl, if_neg h1, if_neg h2, hhex, Bool.not_true,
      Bool.false_or]
    exact ih n1 hscan
  | case3 c1 c2 rest2 hhex e hscan ih =>
    intro n h
    simp [pdScan.eq_2, hhex, hscan] at h
  | case4 c1 c2 rest2 hhex =>
    intro n h
    simp [pdScan.eq_2, hhex] at h
  | case5 rest hne =>
    intro n h
    cases rest with
    | nil =>
      rw [pdScan.eq_3 37 [] (by intro c1 c2 r hr; cases hr)] at h
      simp at h
    | cons c rest1 =>
      cases rest1 with
      | nil =>
        rw [pdScan.eq_3 37 [c] (by intro c1 c2 r hr; cases hr)] at h
        simp at h
      | cons c2 rest2 => exact absurd rfl (hne c c2 rest2)
  | case6 b rest hb ih =>
    intro n h
    rw [pdScan.eq_def] at h
    simp only [if_neg hb] at h
    rw [hasBadPercent.eq_def]
    simp only [if_neg hb]
    exact ih n h

theorem pdScan_no_percent : ∀ l : ByteStr, 37 ∉ l → pdScan l = .ok 0 := by
  intro l
  induction l with
  | nil => intro _; rfl
  | cons b rest ih =>
    intro h
    simp only [List.mem_cons, not_or] at h
    have hb : b ≠ 37 := fun he => h.1 he.symm
    rw [pdScan.eq_def]
    simp only [if_neg hb]
    exact ih h.2

/-- C5: PercentDecode accepts only `%XX` escapes with uppercase hexadecimal
digits — every input containing a `%` not followed by two uppercase hex digits
yields an error, and every input containing no `%` is returned unchanged. -/
theorem c5_percent_decode_strict (input : ByteStr) :
    (hasBadPercent input = true → ∃ e, PercentDecode input = .error e) ∧
    (37 ∉ input → PercentDecode input = .ok input) := by
  constructor
  · intro hbad
    unfold PercentDecode
    cases hscan : pdScan input with
    | error e => exact ⟨e, rfl⟩
    | ok n =>
      rw [pdScan_ok_no_bad input n hscan] at hbad
      simp at hbad
  · intro hno
    unfold PercentDecode
    rw [pdScan_no_percent input hno]
    simp

/-- C5 witness: `%2` (truncated), `%ab` (lowercase) and `%zz` (non-hex) each
fail, and `abc` (no percent) decodes to itself. -/
theorem c5_percent_decode_strict_witness :
    (∃ e, PercentDecode (bytes "%2") = .error e) ∧
    (∃ e, PercentDecode (bytes "%ab") = .error e) ∧
    (∃ e, PercentDecode (bytes "%zz") = .error e) ∧
    PercentDecode (bytes "abc") = .ok (bytes "abc") :=
  ⟨(c5_percent_decode_strict (bytes "%2")).1 (by decide),
   (c5_percent_decode_strict (bytes "%ab")).1 (by decide),
   (c5_percent_decode_strict (bytes "%zz")).1 (by decide),
   (c5_percent_decode_strict (bytes "abc")).2 (by decide)⟩

/-! ## Claims C1 and C3: the HMAC signer and verifier -/

set_option maxRecDepth 100000

/-- C1 counterexample: for the consumer secret `%` (empty token secret, empty
message) the signer's output differs from the claimed
`base64(HMAC-SHA1(pct(cs) & pct(ts), m))` — the source keys the HMAC with the
raw secrets, not the percent-encoded ones. -/
theorem c1_sign_key_not_percent_encoded :
    hmacSignerSign [37] [] [] ≠ specHmacSign [37] [] [] := by decide

/-- C1 amended: the HMAC-SHA1 signer produces `base64(HMAC-SHA1(key, m))`
where `key = cs & ts` joins the RAW secrets (src/sign.go line 206 and
src/signer.go line 32 do not percent encode them); this coincides with the
claimed `pct(cs) & pct(ts)` exactly when both secrets consist only of
unreserved bytes. -/
theorem c1_sign_raw_key (cs ts msg : ByteStr)
    (hcs : ∀ b ∈ cs, isUnreservedByte b = true)
    (hts : ∀ b ∈ ts, isUnreservedByte b = true) :
    hmacSignerSign cs ts msg = base64Encode (hmacSha1 (cs ++ 38 :: ts) msg) ∧
    hmacSignerSign cs ts msg = specHmacSign cs ts msg := by
  refine ⟨rfl, ?_⟩
  unfold specHmacSign specSigningKey hmacSignerSign
  rw [percentEncode_unreserved cs hcs, percentEncode_unreserved ts hts]

/-- C1 witness: the amended theorem at unreserved-only secrets. -/
theorem c1_sign_raw_key_witness :
    hmacSignerSign (bytes "abc") (bytes "xyz") (bytes "m") =
      specHmacSign (bytes "abc") (bytes "xyz") (bytes "m") :=
  (c1_sign_raw_key (bytes "abc") (bytes "xyz") (bytes "m") (by decide) (by decide)).2

/-- C3: verifying a signature produced by the corresponding HMAC signer over
the same base string succeeds. -/
theorem c3_verify_accepts_sign (consumerSecret tokenSecret baseString : ByteStr) :
    hmacVerifierVerify consumerSecret tokenSecret baseString
      (hmacSignerSign consumerSecret tokenSecret baseString) = .ok () := by
  simp [hmacVerifierVerify]

/-! ## Claim C6: malformed authorization pair -/

/-- C6: on a request whose Authorization header is `OAuth foo` (a pair with no
`=`), src/verifier.go collectRequestParameters indexes `kv[1]` out of range —
the collection panics instead of returning a MalformedAuthHeader error. -/
theorem c6_collect_panics_on_malformed_pair :
    collectRequestParameters malformedAuthRequest = .panicked := by decide

/-! ## Claim C7: the timestamp check -/

/-- C7: the timestamp check is skipped when the configured max clock skew is
negative; otherwise, for a parsable timestamp (within the non-saturating range
of `time.Time.Sub`), it succeeds exactly when `now - timestamp ≤ max-skew`; a
timestamp at or after `now` always passes. -/
theorem c7_check_timestamp (maxClockSkew nowNs : Int) (raw : ByteStr) :
    (maxClockSkew < 0 → checkTimestamp maxClockSkew nowNs raw = .ok ()) ∧
    (∀ ts, 0 ≤ maxClockSkew → parseInt64 raw = some ts →
      -(2 ^ 63) ≤ nowNs - ts * 1000000000 → nowNs - ts * 1000000000 ≤ 2 ^ 63 - 1 →
      (checkTimestamp maxClockSkew nowNs raw = .ok () ↔
        nowNs - ts * 1000000000 ≤ maxClockSkew)) ∧
    (∀ ts, parseInt64 raw = some ts → nowNs ≤ ts * 1000000000 →
      checkTimestamp maxClockSkew nowNs raw = .ok ()) := by
  refine ⟨?_, ?_, ?_⟩
  · intro h
    simp [checkTimestamp, h]
  · intro ts hskew hparse hlo hhi
    simp only [checkTimestamp, if_neg (by omega : ¬maxClockSkew < 0), hparse]
    have hclamp : clampI64 (nowNs - ts * 1000000000) = nowNs - ts * 1000000000 := by
      unfold clampI64
      rw [if_neg (by omega), if_neg (by omega)]
    rw [hclamp]
    by_cases hlt : maxClockSkew < nowNs - ts * 1000000000
    · rw [if_pos hlt]
      constructor
      · intro h
        simp at h
      · intro h
        exact absurd h (by omega)
    · rw [if_neg hlt]
      constructor
      · intro _
        omega
      · intro _
        rfl
  · intro ts hparse hts
    by_cases hneg : maxClockSkew < 0
    · simp [checkTimestamp, hneg]
    · simp only [checkTimestamp, if_neg hneg, hparse]
      rw [if_neg (by unfold clampI64; split_ifs <;> omega)]

/-- C7 witness: skipped at negative skew; at skew 10s, now 105s, timestamp
100s the check passes (and the iff holds); a future timestamp 200s passes. -/
theorem c7_check_timestamp_witness :
    checkTimestamp (-1) (105 * 1000000000) (bytes "100") = .ok () ∧
    (checkTimestamp (10 * 1000000000) (105 * 1000000000) (bytes "100") = .ok () ↔
      (105 : Int) * 1000000000 - 100 * 1000000000 ≤ 10 * 1000000000) ∧
    checkTimestamp (10 * 1000000000) (105 * 1000000000) (bytes "200") = .ok () :=
  ⟨(c7_check_timestamp (-1) (105 * 1000000000) (bytes "100")).1 (by decide),
   (c7_check_timestamp (10 * 1000000000) (105 * 1000000000) (bytes "100")).2.1
     100 (by decide) (by decide) (by decide) (by decide),
   (c7_check_timestamp (10 * 1000000000) (105 * 1000000000) (bytes "200")).2.2
     200 (by decide) (by decide)⟩

/-! ## Claim C8: body restoration -/

/-- C8 counterexample: for a form request with body `a=%zz`, building the
signature base takes the `url.ParseQuery` error path and leaves the body
drained (`some []`), not restored to its original bytes. -/
theorem c8_body_not_restored_on_error :
    (signatureBase badBodyRequest []).1 = none ∧
    (signatureBase badBodyRequest []).2.body = some [] ∧
    badBodyRequest.body = some (bytes "a=%zz") ∧
    some ([] : ByteStr) ≠ some (bytes "a=%zz") := by decide

/-- C8 amended: for a form-encoded request, the body is restored to its
original bytes on the success path, while on the form-parse error path it is
left drained (empty). -/
theorem c8_body_restore (req : Request) (oauth : Params) (bs : ByteStr)
    (hb : req.body = some bs) (hct : req.contentTypeHdr = formContentTypeB) :
    ((signatureBase req oauth).1.isSome = true → (signatureBase req oauth).2.body = some bs) ∧
    ((signatureBase req oauth).1 = none → (signatureBase req oauth).2.body = some []) := by
  unfold signatureBase mergedParams
  rw [hb, hct]
  dsimp only
  rw [if_pos rfl]
  cases hpq : parseQuery bs with
  | none => simp
  | some vals => simp

/-- C8 witness: the amended theorem at a request whose body parses — the body
reads back with its original bytes. -/
theorem c8_body_restore_witness :
    (signatureBase okBodyRequest []).2.body = some (bytes "c2=&plus=2+q") :=
  (c8_body_restore okBodyRequest [] (bytes "c2=&plus=2+q") (by decide) (by decide)).1 (by decide)

/-! ## Claim C9: the verifier parameter of the access-token request -/

/-- C9: the src/unnamed/part_012 variant of SetAccessTokenAuthHeader writes
the verifier into `oauth_version` (overwriting `"1.0"`) and emits no
`oauth_verifier` at all, while the src/sign.go variant places the verifier
under `oauth_verifier` and keeps `oauth_version = "1.0"`. -/
theorem c9_verifier_written_to_version_param :
    lookupOpt (accessTokenOAuthParamsV12 (bytes "ck") (bytes "1318467427") (bytes "nonce")
      (bytes "tok") (bytes "v123")) (bytes "oauth_version") = some (bytes "v123") ∧
    lookupOpt (accessTokenOAuthParamsV12 (bytes "ck") (bytes "1318467427") (bytes "nonce")
      (bytes "tok") (bytes "v123")) (bytes "oauth_verifier") = none ∧
    lookupOpt (accessTokenOAuthParams (bytes "ck") (bytes "1318467427") (bytes "nonce")
      (bytes "tok") (bytes "v123")) (bytes "oauth_verifier") = some (bytes "v123") ∧
    lookupOpt (accessTokenOAuthParams (bytes "ck") (bytes "1318467427") (bytes "nonce")
      (bytes "tok") (bytes "v123")) (bytes "oauth_version") = some (bytes "1.0") := by decide

/-! ## Claim C10: the Forwarded header parser -/

theorem cutByte_isSome_of_mem {seg : ByteStr} (h : (61 : Nat) ∈ seg) :
    ((cutByte 61 seg).2).isSome = true := by
  induction seg with
  | nil => simp at h
  | cons b rest ih =>
    simp only [cutByte]
    by_cases hb : b = 61
    · simp [hb]
    · simp only [if_neg hb]
      rcases List.mem_cons.mp h with he | hm
      · exact absurd he.symm hb
      · exact ih hm

theorem fwdPairs_isSome (segs : List ByteStr) : ∀ params : Params,
    (∀ seg ∈ segs, (61 : Nat) ∈ seg) → (fwdPairs params segs).isSome = true := by
  induction segs with
  | nil => intro params _; rfl
  | cons seg rest ih =>
    intro params h
    simp only [fwdPairs]
    cases hc : (cutByte 61 seg).2 with
    | none =>
      have hs := cutByte_isSome_of_mem (h seg (List.mem_cons_self _ _))
      rw [hc] at hs
      simp at hs
    | some v => exact ih _ (fun s hs => h s (List.mem_cons_of_mem _ hs))

/-- C10 counterexample: `parseForwardedHeader "foo"` — a `;`-separated segment
with no `=` — hits the out-of-range `kv[1]` index (the panic is `none`), so
the function is not total. -/
theorem c10_forwarded_panics_on_missing_eq : parseForwardedHeader (bytes "foo") = none := by
  decide

/-- C10 amended: parseForwardedHeader returns a map for every Forwarded header
each of whose `;`-separated segments contains an `=`; a segment without `=`
panics with an out-of-range index. -/
theorem c10_forwarded_total_on_eq_pairs (s : ByteStr)
    (h : ∀ seg ∈ splitOnByte 59 s, (61 : Nat) ∈ seg) :
    (parseForwardedHeader s).isSome = true := by
  unfold parseForwardedHeader
  by_cases hs : s = []
  · simp [hs]
  · rw [if_neg hs]
    exact fwdPairs_isSome _ [] h

/-- C10 witness: the amended theorem at `a=1;proto=https`. -/
theorem c10_forwarded_total_on_eq_pairs_witness :
    (parseForwardedHeader (bytes "a=1;proto=https")).isSome = true :=
  c10_forwarded_total_on_eq_pairs (bytes "a=1;proto=https") (by decide)

end OAuth1
